import Mathlib

set_option maxRecDepth 100000

/-!
Verification of the shopify-tailwind installer scripts.

The repository is a command-line installer that patches a Shopify theme
project: it validates the project (presence of layout/theme.liquid),
ensures a package manifest, writes Tailwind config files, inserts a
stylesheet link into the theme template, and reconciles two ignore files.

File contents are modelled as `List Char`; the filesystem state touched by
the installer is modelled as an explicit record of the five files involved.
JavaScript string operations used by the source (`includes`, `indexOf`,
`slice`, property update on the scripts object, `trim`) are embedded as
executable Lean functions with the same semantics.
-/

/-- Number of occurrences of `pat` in `s`: the number of positions at which
`pat` occurs as a prefix of the corresponding suffix of `s`. -/
def occCount (pat : List Char) : List Char → Nat
  | [] => if pat <+: ([] : List Char) then 1 else 0
  | c :: s => (if pat <+: (c :: s) then 1 else 0) + occCount pat s

/-! ## JavaScript string operations

`jsIndexOfAux needle s` returns the first index at which `needle` occurs in
`s` (as `String.prototype.indexOf` does), `none` when there is no occurrence;
`jsIndexOf` maps `none` to the JavaScript sentinel -1. `jsSlice` and
`jsSliceFrom` follow the `String.prototype.slice` index normalization,
including the negative-index wrap-around. -/

def jsIndexOfAux (needle : List Char) : List Char → Option Nat
  | [] => if needle <+: ([] : List Char) then some 0 else none
  | c :: t =>
      if needle <+: (c :: t) then some 0
      else Option.map (fun k => k + 1) (jsIndexOfAux needle t)

def jsIndexOf (s needle : List Char) : Int :=
  match jsIndexOfAux needle s with
  | some n => (n : Int)
  | none => -1

def jsNormIdx (len : Nat) (i : Int) : Nat :=
  if i < 0 then len - (-i).toNat else min i.toNat len

def jsSlice (s : List Char) (start stop : Int) : List Char :=
  List.drop (jsNormIdx s.length start) (List.take (jsNormIdx s.length stop) s)

def jsSliceFrom (s : List Char) (start : Int) : List Char :=
  List.drop (jsNormIdx s.length start) s

/-! ## Template patcher (addTailwindToThemeLiquid, src/index.js)

The source checks for the fragment
`{{ 'tailwind.css' | asset_url | stylesheet_tag }}` with `includes`, and on
absence inserts the template-literal block
(newline, two spaces, a double quote, the fragment, a double quote, newline,
six spaces) before `indexOf("</head>")` using two `slice` calls. Braces and
apostrophes in the string literals below are written with \x escapes. -/

def linkCheckFragment : List Char :=
  "\x7b\x7b \x27tailwind.css\x27 | asset_url | stylesheet_tag \x7d\x7d".toList

def linkFragTail : List Char := linkCheckFragment.tail

def linkPreTail : List Char := [' ', ' ', '\x22']

def linkTagPre : List Char := '\n' :: linkPreTail

def linkPostTail : List Char := ['\n', ' ', ' ', ' ', ' ', ' ', ' ']

def linkTagPost : List Char := '\x22' :: linkPostTail

/-- The inserted block: the template literal of src/index.js, equal to
newline, two spaces, quote, fragment, quote, newline, six spaces. -/
def linkTag : List Char := linkTagPre ++ linkCheckFragment ++ linkTagPost

def headTagStr : List Char := "</head>".toList

inductive PatchResult where
  | Inserted
  | AlreadyPresent
  | FileMissing
deriving DecidableEq

def patchThemeContent (content : List Char) : List Char × PatchResult :=
  if linkCheckFragment <:+: content then (content, PatchResult.AlreadyPresent)
  else
    (jsSlice content 0 (jsIndexOf content headTagStr) ++ linkTag ++
      jsSliceFrom content (jsIndexOf content headTagStr), PatchResult.Inserted)

def addTailwindToThemeLiquid (file : Option (List Char)) :
    Option (List Char) × PatchResult :=
  match file with
  | none => (none, PatchResult.FileMissing)
  | some c => (some (patchThemeContent c).1, (patchThemeContent c).2)

/-! ## Ignore-file reconciler (createGitIgnore / createShopifyIgnore)

Both source functions follow the same pattern: create the file with a fixed
block when absent, re-read, and if any required line is missing as a
substring append the whole block again. `reconcileFile` embeds that pattern;
the two concrete functions instantiate it with the literal blocks and
required-line lists of the source. The trace records whether the function
took the create branch and whether it appended. -/

def includesAllLines (required : List (List Char)) (c : List Char) : Prop :=
  ∀ l ∈ required, l <:+: c

instance (required : List (List Char)) (c : List Char) :
    Decidable (includesAllLines required c) :=
  List.decidableBAll _ required

structure ReconcileTrace where
  created : Bool
  appended : Bool
  final : List Char
deriving DecidableEq

def reconcileFile (required : List (List Char)) (block : List Char)
    (file : Option (List Char)) : ReconcileTrace :=
  match file with
  | none =>
      if includesAllLines required block then ⟨true, false, block⟩
      else ⟨true, true, block ++ block⟩
  | some c =>
      if includesAllLines required c then ⟨false, false, c⟩
      else ⟨false, true, c ++ block⟩

def gitIgnoreBlock : List Char :=
  "\n.DS_Store\nnode_modules\npackage-lock.json\n.env\n/.idea\n      ".toList

def gitRequired : List (List Char) :=
  [".DS_Store".toList, "node_modules".toList, "package-lock.json".toList,
    ".env".toList, "/.idea".toList]

def createGitIgnore (file : Option (List Char)) : ReconcileTrace :=
  reconcileFile gitRequired gitIgnoreBlock file

def shopifyIgnoreBlock : List Char :=
  "\npackage.json\npackage-lock.json\ntailwind.config.js\ntailwind-config.css\nhtml-ref.html\n      ".toList

def shopifyRequired : List (List Char) :=
  ["package.json".toList, "package-lock.json".toList, "tailwind.config.js".toList,
    "tailwind-config.css".toList, "html-ref.html".toList]

def createShopifyIgnore (file : Option (List Char)) : ReconcileTrace :=
  reconcileFile shopifyRequired shopifyIgnoreBlock file

def allOtherLinesPresent (required : List (List Char)) (lmiss c : List Char) : Prop :=
  ∀ l ∈ required, l ≠ lmiss → l <:+: c

instance (required : List (List Char)) (lmiss c : List Char) :
    Decidable (allOtherLinesPresent required lmiss c) :=
  List.decidableBAll _ required

def allLinesNonempty (required : List (List Char)) : Prop :=
  ∀ l ∈ required, l ≠ []

instance (required : List (List Char)) : Decidable (allLinesNonempty required) :=
  List.decidableBAll _ required

def linesDuplicated (required : List (List Char)) (lmiss c : List Char) : Prop :=
  ∀ l ∈ required, l ≠ lmiss → 2 ≤ occCount l c

instance (required : List (List Char)) (lmiss c : List Char) :
    Decidable (linesDuplicated required lmiss c) :=
  List.decidableBAll _ required

def eachLineOnce (required : List (List Char)) (c : List Char) : Prop :=
  ∀ l ∈ required, occCount l c = 1

instance (required : List (List Char)) (c : List Char) :
    Decidable (eachLineOnce required c) :=
  List.decidableBAll _ required

/-! ## Package manifest and the install driver (installTailwindCSS, src/index.js)

The manifest is modelled by the only part the source touches: the `scripts`
object, an association list of script name to command. `updatePackageJson`
embeds the conditional `if (!packageJson.scripts || !packageJson.scripts.tailwind)`
including JavaScript truthiness of the looked-up string (empty string is
falsy). The driver takes the external world (node availability, the two npm
exit codes, and the manifest npm init would write) as an explicit
environment and acts on a record of the files in the project directory. -/

def lookupScript : List (String × String) → String → Option String
  | [], _ => none
  | (k, v) :: t, key => if k = key then some v else lookupScript t key

def setScript : List (String × String) → String → String → List (String × String)
  | [], key, val => [(key, val)]
  | (k, v) :: t, key, val =>
      if k = key then (key, val) :: t else (k, v) :: setScript t key val

def jsTruthy : Option String → Bool
  | none => false
  | some s => if s = "" then false else true

structure PackageJson where
  scripts : Option (List (String × String))
deriving DecidableEq

def tailwindCmd : String :=
  "npx tailwindcss -i ./tailwind-config.css -o ./assets/tailwind.css --watch"

def updatePackageJson (p : PackageJson) : PackageJson :=
  if p.scripts.isNone = true ∨ jsTruthy (lookupScript (p.scripts.getD []) "tailwind") = false then
    { scripts := some (setScript (p.scripts.getD []) "tailwind" tailwindCmd) }
  else p

/-- Content of the generated tailwind.config.js (written unconditionally). -/
def tailwindConfigContent : List Char :=
  ("\n/** @type \x7bimport(\x27tailwindcss\x27).Config\x7d */\nmodule.exports = \x7b\n  content: [\n    \"*.html\",\n    \"./layout/*.liquid\",\n    \"./sections/*.liquid\",\n    \"./snippets/*.liquid\",\n    \"./assets/*.js\",\n    \"./tailwind-config.css\",\n  ],\n  theme: \x7b\n    screens: \x7b\n      sm: \"550px\",\n      md: \"750px\",\n      lg: \"990px\",\n    \x7d,\n  \x7d,\n  corePlugins: \x7b\n    preflight: false,\n  \x7d,\n  prefix: \"tw-\",\n\x7d;\n  ").toList

/-- Content of the generated tailwind-config.css (written only if absent). -/
def tailwindConfigCssContent : List Char :=
  "\n@tailwind base;\n@tailwind components;\n@tailwind utilities;\n    ".toList

def cssAfter (o : Option (List Char)) : Option (List Char) :=
  match o with
  | some c => some c
  | none => some tailwindConfigCssContent

structure ProjectState where
  themeLiquid : Option (List Char)
  packageJson : Option PackageJson
  tailwindConfig : Option (List Char)
  tailwindConfigCss : Option (List Char)
deriving DecidableEq

structure ExternalEnv where
  nodeAvailable : Bool
  npmInitCode : Nat
  npmInitResult : PackageJson
  npmInstallCode : Nat
deriving DecidableEq

inductive InstallOutcome where
  | exited (code : Nat) (st : ProjectState)
  | completed (st : ProjectState)
deriving DecidableEq

/-- The body of the install after the npm init step: npm install, the
unconditional tailwind.config.js write, the guarded tailwind-config.css
write, the guarded scripts.tailwind update, and the theme patch. The
manifest-absent branch is unreachable from the driver (JSON.parse of a
missing file would throw, terminating the process). -/
def installBody (env : ExternalEnv) (st : ProjectState) : InstallOutcome :=
  if env.npmInstallCode ≠ 0 then InstallOutcome.exited 1 st
  else
    match st.packageJson with
    | none => InstallOutcome.exited 1 st
    | some m =>
        InstallOutcome.completed
          { themeLiquid := (addTailwindToThemeLiquid st.themeLiquid).1
            packageJson := some (updatePackageJson m)
            tailwindConfig := some tailwindConfigContent
            tailwindConfigCss := cssAfter st.tailwindConfigCss }

def installTailwindCSS (env : ExternalEnv) (st : ProjectState) : InstallOutcome :=
  if env.nodeAvailable = false then InstallOutcome.exited 1 st
  else if st.themeLiquid.isNone then InstallOutcome.exited 1 st
  else
    match st.packageJson with
    | none =>
        if env.npmInitCode ≠ 0 then InstallOutcome.exited 1 st
        else installBody env { st with packageJson := some env.npmInitResult }
    | some _ => installBody env st

def outState (o : InstallOutcome) : ProjectState :=
  match o with
  | InstallOutcome.exited _ s => s
  | InstallOutcome.completed s => s

def isCompleted (o : InstallOutcome) : Bool :=
  match o with
  | InstallOutcome.completed _ => true
  | InstallOutcome.exited _ _ => false

def tailwindEntry (st : ProjectState) : Option String :=
  match st.packageJson with
  | none => none
  | some p =>
      match p.scripts with
      | none => none
      | some t => lookupScript t "tailwind"

def occCountOpt (pat : List Char) : Option (List Char) → Nat
  | none => 0
  | some c => occCount pat c

/-! ## Interactive version prompt (promptForVersion, two-version variant)

The prompt trims the answer and resolves only on the literal strings 3 or 4,
otherwise it asks again. The unbounded interactive loop is embedded as a
function of the finite list of answers the user gives, returning none when
the list is exhausted without a valid answer. -/

def jsTrim (s : List Char) : List Char :=
  ((s.dropWhile Char.isWhitespace).reverse.dropWhile Char.isWhitespace).reverse

def promptForVersion : List (List Char) → Option (List Char)
  | [] => none
  | a :: rest =>
      if jsTrim a = "3".toList ∨ jsTrim a = "4".toList then some (jsTrim a)
      else promptForVersion rest

/-! ## Concrete inputs used by witnesses and counterexamples -/

def envOk : ExternalEnv :=
  { nodeAvailable := true, npmInitCode := 0, npmInitResult := { scripts := none },
    npmInstallCode := 0 }

def themeFresh : List Char := "<html><head></head><body></body></html>".toList

def stFresh : ProjectState :=
  { themeLiquid := some themeFresh, packageJson := none, tailwindConfig := none,
    tailwindConfigCss := none }

def themeDouble : List Char := linkCheckFragment ++ linkCheckFragment

def stDouble : ProjectState :=
  { themeLiquid := some themeDouble, packageJson := none, tailwindConfig := none,
    tailwindConfigCss := none }

def stEmptyDir : ProjectState :=
  { themeLiquid := none, packageJson := none, tailwindConfig := none,
    tailwindConfigCss := none }

def oldConfigContent : List Char := "module.exports = \x7b\x7d;".toList

def stOldConfig : ProjectState :=
  { themeLiquid := some linkCheckFragment, packageJson := some { scripts := none },
    tailwindConfig := some oldConfigContent, tailwindConfigCss := none }

def themeWithFrag : List Char :=
  "<head>".toList ++ linkCheckFragment ++ "</head>".toList

def themeNoHead : List Char := "<html><body></body></html>".toList

def cMissOne : List Char :=
  "\npackage.json\npackage-lock.json\ntailwind.config.js\ntailwind-config.css\n".toList

def headIdx (content : List Char) : Nat := (jsIndexOfAux headTagStr content).getD 0

def isFirstOccurrenceAt (pat s : List Char) (n : Nat) : Prop :=
  (pat <+: s.drop n) ∧ ∀ m, m < n → ¬ pat <+: s.drop m

instance (pat s : List Char) (n : Nat) : Decidable (isFirstOccurrenceAt pat s n) := by
  unfold isFirstOccurrenceAt
  exact inferInstance

/-! ## Theorems -/

theorem occCount_nil (pat : List Char) (h : pat ≠ []) : occCount pat [] = 0 := by
  simp only [occCount, List.prefix_nil]
  exact if_neg h

/-- Appending a list `w ++ b :: v` where `b` does not occur in `pat` cannot
create a prefix occurrence of `pat` that was not already one in `w`. -/
theorem prefix_stop_char (b : Char) (v : List Char) :
    ∀ (w pat : List Char), b ∉ pat → ((pat <+: w ++ b :: v) ↔ pat <+: w) := by
  intro w
  induction w with
  | nil =>
      intro pat hb
      cases pat with
      | nil => simp
      | cons p pt =>
          simp only [List.nil_append, List.prefix_nil, List.cons_prefix_cons]
          constructor
          · rintro ⟨rfl, -⟩
            exact absurd (List.mem_cons_self p pt) hb
          · intro h
            cases h
  | cons a w' ih =>
      intro pat hb
      cases pat with
      | nil => simp
      | cons p pt =>
          simp only [List.cons_append, List.cons_prefix_cons]
          constructor
          · rintro ⟨rfl, h⟩
            exact ⟨rfl, (ih pt (fun hm => hb (List.mem_cons_of_mem _ hm))).mp h⟩
          · rintro ⟨rfl, h⟩
            exact ⟨rfl, (ih pt (fun hm => hb (List.mem_cons_of_mem _ hm))).mpr h⟩

/-- Occurrence counting splits across a boundary character that does not
occur in the pattern. -/
theorem occCount_append_cons (pat : List Char) (b : Char) (v : List Char)
    (hpat : pat ≠ []) (hb : b ∉ pat) :
    ∀ u : List Char, occCount pat (u ++ b :: v) = occCount pat u + occCount pat (b :: v) := by
  intro u
  induction u with
  | nil => rw [List.nil_append, occCount_nil pat hpat, Nat.zero_add]
  | cons c u' ih =>
      rw [List.cons_append]
      show (if pat <+: c :: (u' ++ b :: v) then 1 else 0) + occCount pat (u' ++ b :: v) = _
      have hcond : (pat <+: c :: (u' ++ b :: v)) ↔ (pat <+: c :: u') := by
        have := prefix_stop_char b v (c :: u') pat hb
        rwa [List.cons_append] at this
      show (if pat <+: (c :: u') ++ b :: v then 1 else 0) + occCount pat (u' ++ b :: v) = _
      rw [List.cons_append, if_congr hcond rfl rfl, ih]
      show _ = (if pat <+: c :: u' then 1 else 0) + occCount pat u' + occCount pat (b :: v)
      omega

theorem occCount_cons_of_head_ne (p : Char) (pt : List Char) (c : Char) (s : List Char)
    (hc : c ≠ p) :
    occCount (p :: pt) (c :: s) = occCount (p :: pt) s := by
  show (if p :: pt <+: c :: s then 1 else 0) + occCount (p :: pt) s = _
  have : ¬ (p :: pt <+: c :: s) := by
    rw [List.cons_prefix_cons]
    rintro ⟨rfl, -⟩
    exact hc rfl
  rw [if_neg this, Nat.zero_add]

/-- A leading block none of whose characters matches the head of the pattern
contributes no occurrences. -/
theorem occCount_skip_block (p : Char) (pt v : List Char) :
    ∀ u : List Char, (∀ x ∈ u, x ≠ p) → occCount (p :: pt) (u ++ v) = occCount (p :: pt) v := by
  intro u
  induction u with
  | nil => intro _; rw [List.nil_append]
  | cons c u' ih =>
      intro h
      rw [List.cons_append,
        occCount_cons_of_head_ne p pt c (u' ++ v) (h c (List.mem_cons_self c u')),
        ih (fun x hx => h x (List.mem_cons_of_mem c hx))]

theorem occCount_short (pat : List Char) :
    ∀ s : List Char, s.length < pat.length → occCount pat s = 0 := by
  intro s
  induction s with
  | nil =>
      intro h
      have : pat ≠ [] := by
        intro he
        rw [he] at h
        exact Nat.lt_irrefl 0 h
      exact occCount_nil pat this
  | cons c s' ih =>
      intro h
      show (if pat <+: c :: s' then 1 else 0) + occCount pat s' = 0
      have hnp : ¬ (pat <+: c :: s') := by
        intro hp
        have := List.IsPrefix.length_le hp
        simp only [List.length_cons] at this h
        omega
      rw [if_neg hnp, ih (by simp only [List.length_cons] at h; omega), Nat.add_zero]

theorem occCount_self (pat : List Char) (h : pat ≠ []) : occCount pat pat = 1 := by
  cases pat with
  | nil => exact absurd rfl h
  | cons p pt =>
      show (if p :: pt <+: p :: pt then 1 else 0) + occCount (p :: pt) pt = 1
      rw [if_pos (List.prefix_refl _), occCount_short (p :: pt) pt (by simp)]

theorem occCount_eq_zero (pat : List Char) :
    ∀ s : List Char, ¬ pat <:+: s → occCount pat s = 0 := by
  intro s
  induction s with
  | nil =>
      intro h
      refine occCount_nil pat ?_
      intro he
      exact h (he ▸ List.infix_refl [])
  | cons c s' ih =>
      intro h
      show (if pat <+: c :: s' then 1 else 0) + occCount pat s' = 0
      have h1 : ¬ (pat <+: c :: s') := fun hp => h (List.IsPrefix.isInfix hp)
      have h2 : ¬ pat <:+: s' := fun hi => h (List.infix_cons hi)
      rw [if_neg h1, ih h2]

theorem infix_of_occCount_pos (pat : List Char) :
    ∀ s : List Char, 0 < occCount pat s → pat <:+: s := by
  intro s
  induction s with
  | nil =>
      intro h
      simp only [occCount] at h
      by_cases hp : pat <+: ([] : List Char)
      · exact List.IsPrefix.isInfix hp
      · rw [if_neg hp] at h
        exact absurd h (Nat.lt_irrefl 0)
  | cons c s' ih =>
      intro h
      by_cases hp : pat <+: c :: s'
      · exact List.IsPrefix.isInfix hp
      · have : (if pat <+: c :: s' then 1 else 0) + occCount pat s' = occCount pat (c :: s') := rfl
        rw [if_neg hp, Nat.zero_add] at this
        exact List.infix_cons (ih (this ▸ h))

theorem occCount_superadd (pat : List Char) (hpat : pat ≠ []) (v : List Char) :
    ∀ u : List Char, occCount pat u + occCount pat v ≤ occCount pat (u ++ v) := by
  intro u
  induction u with
  | nil => rw [occCount_nil pat hpat, List.nil_append, Nat.zero_add]
  | cons c u' ih =>
      rw [List.cons_append]
      show _ ≤ (if pat <+: c :: (u' ++ v) then 1 else 0) + occCount pat (u' ++ v)
      show (if pat <+: c :: u' then 1 else 0) + occCount pat u' + occCount pat v ≤ _
      have hmono : (if pat <+: c :: u' then 1 else 0) ≤ (if pat <+: c :: (u' ++ v) then 1 else 0) := by
        by_cases hp : pat <+: c :: u'
        · have : pat <+: c :: (u' ++ v) := by
            have := List.IsPrefix.trans hp (List.prefix_append (c :: u') v)
            rwa [List.cons_append] at this
          rw [if_pos hp, if_pos this]
        · rw [if_neg hp]
          exact Nat.zero_le _
      omega

theorem occCount_pos_of_infix (pat : List Char) (hpat : pat ≠ []) (s : List Char)
    (h : pat <:+: s) : 0 < occCount pat s := by
  obtain ⟨a, b, rfl⟩ := h
  rw [List.append_assoc]
  have h1 := occCount_superadd pat hpat (pat ++ b) a
  have h2 := occCount_superadd pat hpat b pat
  have h3 := occCount_self pat hpat
  omega

theorem jsIndexOfAux_some (needle : List Char) :
    ∀ (s : List Char) (n : Nat), jsIndexOfAux needle s = some n →
      (needle <+: s.drop n) ∧ ∀ m, m < n → ¬ needle <+: s.drop m := by
  intro s
  induction s with
  | nil =>
      intro n h
      simp only [jsIndexOfAux] at h
      by_cases hp : needle <+: ([] : List Char)
      · rw [if_pos hp] at h
        cases h
        exact ⟨hp, fun m hm => absurd hm (Nat.not_lt_zero m)⟩
      · rw [if_neg hp] at h
        cases h
  | cons c t ih =>
      intro n h
      simp only [jsIndexOfAux] at h
      by_cases hp : needle <+: (c :: t)
      · rw [if_pos hp] at h
        cases h
        exact ⟨hp, fun m hm => absurd hm (Nat.not_lt_zero m)⟩
      · rw [if_neg hp] at h
        cases hk : jsIndexOfAux needle t with
        | none => rw [hk] at h; cases h
        | some k =>
            rw [hk] at h
            simp only [Option.map_some'] at h
            cases h
            obtain ⟨h1, h2⟩ := ih k hk
            refine ⟨h1, ?_⟩
            intro m hm
            cases m with
            | zero => exact hp
            | succ m' => exact h2 m' (Nat.lt_of_succ_lt_succ hm)

theorem jsIndexOfAux_of_infix (needle : List Char) :
    ∀ s : List Char, needle <:+: s → ∃ n, jsIndexOfAux needle s = some n := by
  intro s
  induction s with
  | nil =>
      intro h
      refine ⟨0, ?_⟩
      simp only [jsIndexOfAux]
      rw [if_pos]
      exact (List.infix_nil.mp h) ▸ List.prefix_refl []
  | cons c t ih =>
      intro h
      by_cases hp : needle <+: (c :: t)
      · exact ⟨0, by simp only [jsIndexOfAux]; rw [if_pos hp]⟩
      · have ht : needle <:+: t := by
          obtain ⟨u, v, huv⟩ := h
          cases u with
          | nil =>
              exfalso
              exact hp ⟨v, by simpa using huv⟩
          | cons a u' =>
              refine ⟨u', v, ?_⟩
              have : a :: (u' ++ needle ++ v) = c :: t := by simpa using huv
              exact (List.cons_eq_cons.mp this).2
        obtain ⟨k, hk⟩ := ih ht
        refine ⟨k + 1, ?_⟩
        simp only [jsIndexOfAux]
        rw [if_neg hp, hk]
        rfl

theorem jsIndexOfAux_none (needle : List Char) (hne : needle ≠ []) :
    ∀ s : List Char, ¬ needle <:+: s → jsIndexOfAux needle s = none := by
  intro s
  induction s with
  | nil =>
      intro h
      simp only [jsIndexOfAux]
      rw [if_neg]
      intro hp
      exact hne (List.prefix_nil.mp hp)
  | cons c t ih =>
      intro h
      simp only [jsIndexOfAux]
      rw [if_neg (fun hp => h (List.IsPrefix.isInfix hp)),
        ih (fun hi => h (List.infix_cons hi))]
      rfl

theorem jsIndexOfAux_le_length (needle : List Char) :
    ∀ (s : List Char) (n : Nat), jsIndexOfAux needle s = some n → n ≤ s.length := by
  intro s
  induction s with
  | nil =>
      intro n h
      simp only [jsIndexOfAux] at h
      by_cases hp : needle <+: ([] : List Char)
      · rw [if_pos hp] at h; cases h; exact Nat.le_refl 0
      · rw [if_neg hp] at h; cases h
  | cons c t ih =>
      intro n h
      simp only [jsIndexOfAux] at h
      by_cases hp : needle <+: (c :: t)
      · rw [if_pos hp] at h; cases h; exact Nat.zero_le _
      · rw [if_neg hp] at h
        cases hk : jsIndexOfAux needle t with
        | none => rw [hk] at h; cases h
        | some k =>
            rw [hk] at h
            simp only [Option.map_some'] at h
            cases h
            simpa using Nat.succ_le_succ (ih k hk)

theorem jsNormIdx_zero (len : Nat) : jsNormIdx len 0 = 0 := by
  simp [jsNormIdx]

theorem jsNormIdx_nat (len n : Nat) (h : n ≤ len) : jsNormIdx len (n : Int) = n := by
  simp only [jsNormIdx]
  rw [if_neg (by omega), Int.toNat_natCast]
  exact Nat.min_eq_left h

theorem jsNormIdx_neg_one (len : Nat) : jsNormIdx len (-1) = len - 1 := by
  simp [jsNormIdx]

theorem jsSlice_zero_nat (s : List Char) (n : Nat) (h : n ≤ s.length) :
    jsSlice s 0 (n : Int) = s.take n := by
  simp only [jsSlice, jsNormIdx_zero, jsNormIdx_nat s.length n h, List.drop_zero]

theorem jsSliceFrom_nat (s : List Char) (n : Nat) (h : n ≤ s.length) :
    jsSliceFrom s (n : Int) = s.drop n := by
  simp only [jsSliceFrom, jsNormIdx_nat s.length n h]

theorem jsSlice_zero_neg_one (s : List Char) : jsSlice s 0 (-1) = s.dropLast := by
  simp only [jsSlice, jsNormIdx_zero, jsNormIdx_neg_one, List.drop_zero]
  exact (List.dropLast_eq_take s).symm

theorem jsSliceFrom_neg_one (s : List Char) : jsSliceFrom s (-1) = s.drop (s.length - 1) := by
  simp only [jsSliceFrom, jsNormIdx_neg_one]

theorem linkFrag_cons : linkCheckFragment = '\x7b' :: linkFragTail := rfl

theorem patch_already_present (content : List Char)
    (h : linkCheckFragment <:+: content) :
    patchThemeContent content = (content, PatchResult.AlreadyPresent) := by
  rw [patchThemeContent, if_pos h]

/-- Core counting fact: wrapping the inserted block between two pieces that
do not contain the fragment yields exactly one occurrence of the fragment. -/
theorem occCount_insert_core (pre suf : List Char)
    (hpre : ¬ linkCheckFragment <:+: pre) (hsuf : ¬ linkCheckFragment <:+: suf) :
    occCount linkCheckFragment (pre ++ linkTag ++ suf) = 1 := by
  have hne : linkCheckFragment ≠ [] := by decide
  have hnl : ('\n' : Char) ∉ linkCheckFragment := by decide
  have hq : ('\x22' : Char) ∉ linkCheckFragment := by decide
  have hpreChars : ∀ x ∈ linkTagPre, x ≠ '\x7b' := by decide
  have hpostChars : ∀ x ∈ linkTagPost, x ≠ '\x7b' := by decide
  have e1 : pre ++ linkTag ++ suf
      = pre ++ '\n' :: (linkPreTail ++ (linkCheckFragment ++ ('\x22' :: (linkPostTail ++ suf)))) := by
    simp only [linkTag, linkTagPre, linkTagPost, List.append_assoc, List.cons_append]
  rw [e1, occCount_append_cons linkCheckFragment '\n' _ hne hnl pre,
    occCount_eq_zero linkCheckFragment pre hpre, Nat.zero_add]
  have e2 : ('\n' :: (linkPreTail ++ (linkCheckFragment ++ ('\x22' :: (linkPostTail ++ suf)))))
      = linkTagPre ++ (linkCheckFragment ++ ('\x22' :: (linkPostTail ++ suf))) := by
    simp only [linkTagPre, List.cons_append]
  rw [e2, linkFrag_cons,
    occCount_skip_block '\x7b' linkFragTail _ linkTagPre hpreChars, ← linkFrag_cons,
    occCount_append_cons linkCheckFragment '\x22' (linkPostTail ++ suf) hne hq linkCheckFragment,
    occCount_self linkCheckFragment hne]
  have e3 : ('\x22' :: (linkPostTail ++ suf)) = linkTagPost ++ suf := by
    simp only [linkTagPost, List.cons_append]
  rw [e3, linkFrag_cons, occCount_skip_block '\x7b' linkFragTail _ linkTagPost hpostChars,
    ← linkFrag_cons, occCount_eq_zero linkCheckFragment suf hsuf]

theorem not_infix_take (pat s : List Char) (n : Nat) (h : ¬ pat <:+: s) :
    ¬ pat <:+: s.take n := by
  intro hi
  exact h (List.IsInfix.trans hi (List.IsPrefix.isInfix (List.take_prefix n s)))

theorem not_infix_drop (pat s : List Char) (n : Nat) (h : ¬ pat <:+: s) :
    ¬ pat <:+: s.drop n := by
  intro hi
  exact h (List.IsInfix.trans hi (List.IsSuffix.isInfix (List.drop_suffix n s)))

theorem patch_inserted_at (content : List Char) (n : Nat)
    (h1 : ¬ linkCheckFragment <:+: content)
    (hn : jsIndexOfAux headTagStr content = some n) :
    patchThemeContent content =
      (content.take n ++ linkTag ++ content.drop n, PatchResult.Inserted) := by
  have hlen : n ≤ content.length := jsIndexOfAux_le_length headTagStr content n hn
  rw [patchThemeContent, if_neg h1]
  have hidx : jsIndexOf content headTagStr = (n : Int) := by
    rw [jsIndexOf, hn]
  rw [hidx, jsSlice_zero_nat content n hlen, jsSliceFrom_nat content n hlen]

theorem patch_inserted_end (content : List Char)
    (h1 : ¬ linkCheckFragment <:+: content)
    (hn : jsIndexOfAux headTagStr content = none) :
    patchThemeContent content =
      (content.dropLast ++ linkTag ++ content.drop (content.length - 1),
        PatchResult.Inserted) := by
  rw [patchThemeContent, if_neg h1]
  have hidx : jsIndexOf content headTagStr = -1 := by
    rw [jsIndexOf, hn]
  rw [hidx, jsSlice_zero_neg_one, jsSliceFrom_neg_one]

/-- When the fragment is absent, patching always inserts it and the result
contains the fragment exactly once, wherever the anchor search landed. -/
theorem patch_occCount_one (content : List Char)
    (h1 : ¬ linkCheckFragment <:+: content) :
    occCount linkCheckFragment (patchThemeContent content).1 = 1 ∧
      (patchThemeContent content).2 = PatchResult.Inserted := by
  cases hn : jsIndexOfAux headTagStr content with
  | some n =>
      rw [patch_inserted_at content n h1 hn]
      exact ⟨occCount_insert_core _ _ (not_infix_take _ _ _ h1) (not_infix_drop _ _ _ h1), rfl⟩
  | none =>
      rw [patch_inserted_end content h1 hn]
      refine ⟨?_, rfl⟩
      rw [List.dropLast_eq_take]
      exact occCount_insert_core _ _ (not_infix_take _ _ _ h1) (not_infix_drop _ _ _ h1)

theorem lookupScript_set (t : List (String × String)) (k v : String) :
    lookupScript (setScript t k v) k = some v := by
  induction t with
  | nil => simp [setScript, lookupScript]
  | cons hd t' ih =>
      obtain ⟨k', v'⟩ := hd
      by_cases hk : k' = k
      · subst hk
        simp [setScript, lookupScript]
      · simp only [setScript, if_neg hk, lookupScript]
        exact ih

theorem updatePackageJson_tailwind (p : PackageJson) :
    ∃ t, (updatePackageJson p).scripts = some t ∧
      jsTruthy (lookupScript t "tailwind") = true := by
  rw [updatePackageJson]
  by_cases hc : p.scripts.isNone = true ∨
      jsTruthy (lookupScript (p.scripts.getD []) "tailwind") = false
  · rw [if_pos hc]
    refine ⟨setScript (p.scripts.getD []) "tailwind" tailwindCmd, rfl, ?_⟩
    rw [lookupScript_set]
    simp [jsTruthy, tailwindCmd]
  · rw [if_neg hc]
    push_neg at hc
    obtain ⟨h1, h2⟩ := hc
    cases hp : p.scripts with
    | none => rw [hp] at h1; exact absurd rfl h1
    | some t =>
        refine ⟨t, rfl, ?_⟩
        rw [hp] at h2
        simp only [Option.getD_some] at h2
        cases hj : jsTruthy (lookupScript t "tailwind") with
        | false => exact absurd hj h2
        | true => rfl

theorem updatePackageJson_idem (p : PackageJson) :
    updatePackageJson (updatePackageJson p) = updatePackageJson p := by
  obtain ⟨t, h1, h2⟩ := updatePackageJson_tailwind p
  rw [updatePackageJson]
  have hng : ¬ ((updatePackageJson p).scripts.isNone = true ∨
      jsTruthy (lookupScript ((updatePackageJson p).scripts.getD []) "tailwind") = false) := by
    rintro (ha | hb)
    · rw [h1] at ha
      simp at ha
    · rw [h1] at hb
      simp only [Option.getD_some] at hb
      rw [h2] at hb
      cases hb
  rw [if_neg hng]

/-- Inversion of a completed install run: the start state had a theme file,
the manifest was present or created by npm init, and the final state is the
record of all four file writes. -/
theorem install_inv (env : ExternalEnv) (st st' : ProjectState)
    (h : installTailwindCSS env st = InstallOutcome.completed st') :
    ∃ c m, st.themeLiquid = some c ∧
      (st.packageJson = some m ∨ (st.packageJson = none ∧ m = env.npmInitResult)) ∧
      st' = { themeLiquid := some (patchThemeContent c).1
              packageJson := some (updatePackageJson m)
              tailwindConfig := some tailwindConfigContent
              tailwindConfigCss := cssAfter st.tailwindConfigCss } := by
  rw [installTailwindCSS] at h
  by_cases hn : env.nodeAvailable = false
  · rw [if_pos hn] at h
    cases h
  rw [if_neg hn] at h
  by_cases ht : st.themeLiquid.isNone
  · rw [if_pos ht] at h
    cases h
  rw [if_neg ht] at h
  obtain ⟨c, hc⟩ : ∃ c, st.themeLiquid = some c := by
    cases hcase : st.themeLiquid with
    | none => rw [hcase] at ht; exact absurd rfl ht
    | some c => exact ⟨c, rfl⟩
  cases hpj : st.packageJson with
  | none =>
      rw [hpj] at h
      by_cases hi : env.npmInitCode ≠ 0
      · rw [if_pos hi] at h
        cases h
      rw [if_neg hi] at h
      rw [installBody] at h
      by_cases hins : env.npmInstallCode ≠ 0
      · rw [if_pos hins] at h
        cases h
      rw [if_neg hins] at h
      have h2 : InstallOutcome.completed
          { themeLiquid := (addTailwindToThemeLiquid st.themeLiquid).1
            packageJson := some (updatePackageJson env.npmInitResult)
            tailwindConfig := some tailwindConfigContent
            tailwindConfigCss := cssAfter st.tailwindConfigCss }
          = InstallOutcome.completed st' := h
      injection h2 with h3
      refine ⟨c, env.npmInitResult, hc, Or.inr ⟨rfl, rfl⟩, ?_⟩
      rw [← h3, hc]
      rfl
  | some m =>
      rw [hpj] at h
      have hbody : installBody env st = InstallOutcome.completed st' := h
      rw [installBody] at hbody
      by_cases hins : env.npmInstallCode ≠ 0
      · rw [if_pos hins] at hbody
        cases hbody
      rw [if_neg hins, hpj] at hbody
      have h2 : InstallOutcome.completed
          { themeLiquid := (addTailwindToThemeLiquid st.themeLiquid).1
            packageJson := some (updatePackageJson m)
            tailwindConfig := some tailwindConfigContent
            tailwindConfigCss := cssAfter st.tailwindConfigCss }
          = InstallOutcome.completed st' := hbody
      injection h2 with h3
      refine ⟨c, m, hc, Or.inl rfl, ?_⟩
      rw [← h3, hc]
      rfl

/-- C4: for every marker-file content not containing the link fragment but
containing the literal closing tag, patching inserts the block immediately
before the first occurrence of the closing tag, and afterwards the fragment
occurs exactly once. -/
theorem c4_insert_before_head (content : List Char)
    (h1 : ¬ linkCheckFragment <:+: content)
    (h2 : headTagStr <:+: content) :
    jsIndexOf content headTagStr = (headIdx content : Int) ∧
    isFirstOccurrenceAt headTagStr content (headIdx content) ∧
    patchThemeContent content =
      (content.take (headIdx content) ++ linkTag ++ content.drop (headIdx content),
        PatchResult.Inserted) ∧
    occCount linkCheckFragment (patchThemeContent content).1 = 1 := by
  obtain ⟨n, hn⟩ := jsIndexOfAux_of_infix headTagStr content h2
  have hidx : headIdx content = n := by rw [headIdx, hn]; rfl
  obtain ⟨hpre, hmin⟩ := jsIndexOfAux_some headTagStr content n hn
  refine ⟨?_, ?_, ?_, (patch_occCount_one content h1).1⟩
  · rw [jsIndexOf, hn, hidx]
  · rw [hidx]
    exact ⟨hpre, hmin⟩
  · rw [hidx]
    exact patch_inserted_at content n h1 hn

theorem c4_insert_witness :
    (¬ linkCheckFragment <:+: themeFresh) ∧ (headTagStr <:+: themeFresh) ∧
    (jsIndexOf themeFresh headTagStr = (headIdx themeFresh : Int) ∧
      isFirstOccurrenceAt headTagStr themeFresh (headIdx themeFresh) ∧
      patchThemeContent themeFresh =
        (themeFresh.take (headIdx themeFresh) ++ linkTag ++
          themeFresh.drop (headIdx themeFresh), PatchResult.Inserted) ∧
      occCount linkCheckFragment (patchThemeContent themeFresh).1 = 1) :=
  ⟨by decide, by decide, c4_insert_before_head themeFresh (by decide) (by decide)⟩

/-- C5: for every marker-file content already containing the link fragment,
patching returns AlreadyPresent and the content is unchanged byte for byte. -/
theorem c5_already_present (content : List Char)
    (h : linkCheckFragment <:+: content) :
    patchThemeContent content = (content, PatchResult.AlreadyPresent) := by
  rw [patchThemeContent, if_pos h]

theorem c5_already_present_witness :
    (linkCheckFragment <:+: themeWithFrag) ∧
    patchThemeContent themeWithFrag = (themeWithFrag, PatchResult.AlreadyPresent) :=
  ⟨by decide, c5_already_present themeWithFrag (by decide)⟩

/-- C10: for every marker-file content containing neither the fragment nor
the closing tag, the anchor search yields -1 and the block is inserted
before the final character, preserving every byte of the original. -/
theorem c10_no_anchor_insert (content : List Char)
    (h1 : ¬ linkCheckFragment <:+: content)
    (h2 : ¬ headTagStr <:+: content) :
    jsIndexOf content headTagStr = -1 ∧
    patchThemeContent content =
      (content.dropLast ++ linkTag ++ content.drop (content.length - 1),
        PatchResult.Inserted) ∧
    content.dropLast ++ content.drop (content.length - 1) = content := by
  have hne : headTagStr ≠ [] := by decide
  have hn := jsIndexOfAux_none headTagStr hne content h2
  refine ⟨by rw [jsIndexOf, hn], patch_inserted_end content h1 hn, ?_⟩
  rw [List.dropLast_eq_take]
  exact List.take_append_drop _ content

theorem c10_no_anchor_witness :
    (¬ linkCheckFragment <:+: themeNoHead) ∧ (¬ headTagStr <:+: themeNoHead) ∧
    (jsIndexOf themeNoHead headTagStr = -1 ∧
      patchThemeContent themeNoHead =
        (themeNoHead.dropLast ++ linkTag ++ themeNoHead.drop (themeNoHead.length - 1),
          PatchResult.Inserted) ∧
      themeNoHead.dropLast ++ themeNoHead.drop (themeNoHead.length - 1) = themeNoHead) :=
  ⟨by decide, by decide, c10_no_anchor_insert themeNoHead (by decide) (by decide)⟩

/-- C6: for every required-line set and every existing content containing
each required line as a substring, reconcile takes the unchanged branch and
leaves the file byte-identical, with no append. -/
theorem c6_reconcile_unchanged (required : List (List Char)) (block c : List Char)
    (h : includesAllLines required c) :
    reconcileFile required block (some c) = ⟨false, false, c⟩ := by
  simp only [reconcileFile]
  rw [if_pos h]

theorem c6_reconcile_unchanged_witness :
    includesAllLines shopifyRequired shopifyIgnoreBlock ∧
    reconcileFile shopifyRequired shopifyIgnoreBlock (some shopifyIgnoreBlock) =
      ⟨false, false, shopifyIgnoreBlock⟩ :=
  ⟨by decide,
    c6_reconcile_unchanged shopifyRequired shopifyIgnoreBlock shopifyIgnoreBlock (by decide)⟩

/-- C7: for every existing content missing exactly one required line, the
reconcile appends the entire block, so every line that was already present
occurs at least twice afterwards; the trigger is conjunctive absence. -/
theorem c7_reconcile_duplicates (required : List (List Char)) (block c lmiss : List Char)
    (hmem : lmiss ∈ required) (hmiss : ¬ lmiss <:+: c)
    (hothers : allOtherLinesPresent required lmiss c)
    (hblock : includesAllLines required block)
    (hne : allLinesNonempty required) :
    reconcileFile required block (some c) = ⟨false, true, c ++ block⟩ ∧
    linesDuplicated required lmiss (c ++ block) := by
  constructor
  · simp only [reconcileFile]
    rw [if_neg]
    intro hall
    exact hmiss (hall lmiss hmem)
  · intro l hl hlne
    have h1 := occCount_pos_of_infix l (hne l hl) c (hothers l hl hlne)
    have h2 := occCount_pos_of_infix l (hne l hl) block (hblock l hl)
    have h3 := occCount_superadd l (hne l hl) block c
    omega

theorem c7_reconcile_duplicates_witness :
    ("html-ref.html".toList ∈ shopifyRequired) ∧
    (¬ "html-ref.html".toList <:+: cMissOne) ∧
    allOtherLinesPresent shopifyRequired ("html-ref.html".toList) cMissOne ∧
    includesAllLines shopifyRequired shopifyIgnoreBlock ∧
    allLinesNonempty shopifyRequired ∧
    (reconcileFile shopifyRequired shopifyIgnoreBlock (some cMissOne) =
        ⟨false, true, cMissOne ++ shopifyIgnoreBlock⟩ ∧
      linesDuplicated shopifyRequired ("html-ref.html".toList) (cMissOne ++ shopifyIgnoreBlock)) :=
  ⟨by decide, by decide, by decide, by decide, by decide,
    c7_reconcile_duplicates shopifyRequired shopifyIgnoreBlock cMissOne
      ("html-ref.html".toList) (by decide) (by decide) (by decide) (by decide) (by decide)⟩

/-- C8: when the runtime check passes but the marker file is absent, the
install exits with status 1 and the project state is unchanged. -/
theorem c8_missing_marker_exits (env : ExternalEnv) (st : ProjectState)
    (hnode : env.nodeAvailable = true) (hth : st.themeLiquid = none) :
    installTailwindCSS env st = InstallOutcome.exited 1 st := by
  rw [installTailwindCSS]
  rw [if_neg (by rw [hnode]; simp)]
  rw [if_pos (by rw [hth]; rfl)]

theorem c8_missing_marker_witness :
    envOk.nodeAvailable = true ∧ stEmptyDir.themeLiquid = none ∧
    installTailwindCSS envOk stEmptyDir = InstallOutcome.exited 1 stEmptyDir :=
  ⟨rfl, rfl, c8_missing_marker_exits envOk stEmptyDir rfl rfl⟩

/-- C9: the interactive version prompt only ever resolves with one of the
two accepted literal strings, and any other input causes a re-prompt. -/
theorem c9_prompt_accepts :
    (∀ (inputs : List (List Char)) (r : List Char),
        promptForVersion inputs = some r → r = "3".toList ∨ r = "4".toList) ∧
    (∀ (a : List Char) (rest : List (List Char)),
        jsTrim a ≠ "3".toList → jsTrim a ≠ "4".toList →
          promptForVersion (a :: rest) = promptForVersion rest) := by
  constructor
  · intro inputs
    induction inputs with
    | nil => intro r h; cases h
    | cons a rest ih =>
        intro r h
        simp only [promptForVersion] at h
        by_cases hv : jsTrim a = "3".toList ∨ jsTrim a = "4".toList
        · rw [if_pos hv] at h
          injection h with he
          rcases hv with h3 | h4
          · exact Or.inl (he.symm.trans h3)
          · exact Or.inr (he.symm.trans h4)
        · rw [if_neg hv] at h
          exact ih r h
  · intro a rest h3 h4
    simp only [promptForVersion]
    rw [if_neg]
    rintro (h | h)
    · exact h3 h
    · exact h4 h

theorem c9_prompt_witness :
    promptForVersion ["hello".toList, " 4 ".toList] = some ("4".toList) ∧
    ("4".toList = "3".toList ∨ "4".toList = "4".toList) :=
  ⟨by decide,
    c9_prompt_accepts.1 ["hello".toList, " 4 ".toList] ("4".toList) (by decide)⟩

/-- C1 counterexample: if the marker file already contains the link fragment
twice, both runs take the AlreadyPresent branch and after the second run the
fragment still occurs twice, refuting the unconditional exactly-once clause. -/
theorem c1_counterexample :
    isCompleted (installTailwindCSS envOk stDouble) = true ∧
    isCompleted (installTailwindCSS envOk (outState (installTailwindCSS envOk stDouble))) = true ∧
    occCountOpt linkCheckFragment
      (outState (installTailwindCSS envOk
        (outState (installTailwindCSS envOk stDouble)))).themeLiquid = 2 := by
  refine ⟨by decide, by decide, by decide⟩

/-- C1 (amended): provided the marker file does not initially contain the
link fragment more than once, two consecutive completed install runs give
the same scripts tailwind entry after both runs, the fragment occurs exactly
once after the second run, and the second run takes the AlreadyPresent
branch, leaving the marker file unchanged. -/
theorem c1_install_twice_idempotent (env1 env2 : ExternalEnv) (st st1 st2 : ProjectState)
    (hcount : occCountOpt linkCheckFragment st.themeLiquid ≤ 1)
    (h1 : installTailwindCSS env1 st = InstallOutcome.completed st1)
    (h2 : installTailwindCSS env2 st1 = InstallOutcome.completed st2) :
    tailwindEntry st2 = tailwindEntry st1 ∧
    occCountOpt linkCheckFragment st2.themeLiquid = 1 ∧
    (addTailwindToThemeLiquid st1.themeLiquid).2 = PatchResult.AlreadyPresent ∧
    st2.themeLiquid = st1.themeLiquid := by
  obtain ⟨c, m, hc, hm, hst1⟩ := install_inv env1 st st1 h1
  obtain ⟨c1, m1, hc1, hm1, hst2⟩ := install_inv env2 st1 st2 h2
  have hFne : linkCheckFragment ≠ [] := by decide
  have hth1 : st1.themeLiquid = some (patchThemeContent c).1 := by rw [hst1]
  have hcnt : occCount linkCheckFragment (patchThemeContent c).1 = 1 := by
    by_cases hin : linkCheckFragment <:+: c
    · rw [patch_already_present c hin]
      show occCount linkCheckFragment c = 1
      rw [hc] at hcount
      have hle : occCount linkCheckFragment c ≤ 1 := hcount
      have hge := occCount_pos_of_infix linkCheckFragment hFne c hin
      omega
    · exact (patch_occCount_one c hin).1
  have hc1e : (patchThemeContent c).1 = c1 := by
    rw [hth1] at hc1
    injection hc1
  have hcnt1 : occCount linkCheckFragment c1 = 1 := hc1e ▸ hcnt
  have hinf1 : linkCheckFragment <:+: c1 :=
    infix_of_occCount_pos linkCheckFragment c1 (by rw [hcnt1]; exact Nat.one_pos)
  have hpatch2 := patch_already_present c1 hinf1
  refine ⟨?_, ?_, ?_, ?_⟩
  · have hpj1 : st1.packageJson = some (updatePackageJson m) := by rw [hst1]
    have hm1e : m1 = updatePackageJson m := by
      rcases hm1 with hsome | ⟨hnone, -⟩
      · rw [hpj1] at hsome
        injection hsome with e
        exact e.symm
      · rw [hpj1] at hnone
        cases hnone
    have hpjeq : st2.packageJson = st1.packageJson := by
      rw [hst2, hpj1]
      show some (updatePackageJson m1) = some (updatePackageJson m)
      rw [hm1e, updatePackageJson_idem]
    rw [tailwindEntry, tailwindEntry, hpjeq]
  · rw [hst2]
    show occCount linkCheckFragment (patchThemeContent c1).1 = 1
    rw [hpatch2]
    exact hcnt1
  · rw [hc1]
    show (patchThemeContent c1).2 = PatchResult.AlreadyPresent
    rw [hpatch2]
  · rw [hst2, hc1]
    show some (patchThemeContent c1).1 = some c1
    rw [hpatch2]

theorem c1_install_twice_witness :
    occCountOpt linkCheckFragment stFresh.themeLiquid ≤ 1 ∧
    (tailwindEntry (outState (installTailwindCSS envOk (outState (installTailwindCSS envOk stFresh)))) =
        tailwindEntry (outState (installTailwindCSS envOk stFresh)) ∧
      occCountOpt linkCheckFragment
        (outState (installTailwindCSS envOk (outState (installTailwindCSS envOk stFresh)))).themeLiquid = 1 ∧
      (addTailwindToThemeLiquid (outState (installTailwindCSS envOk stFresh)).themeLiquid).2 =
        PatchResult.AlreadyPresent ∧
      (outState (installTailwindCSS envOk (outState (installTailwindCSS envOk stFresh)))).themeLiquid =
        (outState (installTailwindCSS envOk stFresh)).themeLiquid) :=
  ⟨by decide,
    c1_install_twice_idempotent envOk envOk stFresh
      (outState (installTailwindCSS envOk stFresh))
      (outState (installTailwindCSS envOk (outState (installTailwindCSS envOk stFresh))))
      (by decide) (by decide) (by decide)⟩

/-- C2 counterexample: a project whose tailwind.config.js already exists
with different content has it rewritten by a completed install. -/
theorem c2_counterexample :
    stOldConfig.tailwindConfig = some oldConfigContent ∧
    isCompleted (installTailwindCSS envOk stOldConfig) = true ∧
    (outState (installTailwindCSS envOk stOldConfig)).tailwindConfig ≠ some oldConfigContent := by
  refine ⟨rfl, by decide, by decide⟩

/-- C2 (amended): every completed install unconditionally rewrites the
build-tool config with the fixed template; only the CSS entry point is
guarded by a pure presence check and left unchanged when present. -/
theorem c2_config_rewrite (env : ExternalEnv) (st st' : ProjectState)
    (h : installTailwindCSS env st = InstallOutcome.completed st') :
    st'.tailwindConfig = some tailwindConfigContent ∧
    st'.tailwindConfigCss = cssAfter st.tailwindConfigCss := by
  obtain ⟨c, m, -, -, hst⟩ := install_inv env st st' h
  rw [hst]
  exact ⟨rfl, rfl⟩

theorem c2_config_rewrite_witness :
    installTailwindCSS envOk stOldConfig =
      InstallOutcome.completed (outState (installTailwindCSS envOk stOldConfig)) ∧
    ((outState (installTailwindCSS envOk stOldConfig)).tailwindConfig = some tailwindConfigContent ∧
      (outState (installTailwindCSS envOk stOldConfig)).tailwindConfigCss =
        cssAfter stOldConfig.tailwindConfigCss) :=
  ⟨by decide,
    c2_config_rewrite envOk stOldConfig (outState (installTailwindCSS envOk stOldConfig)) (by decide)⟩

/-- C3 counterexample: reconciling an absent ignore file creates it and the
subsequent re-read-and-check appends nothing; a required line appears once,
not twice. -/
theorem c3_counterexample :
    (createGitIgnore none).appended = false ∧
    occCount (".DS_Store".toList) (createGitIgnore none).final = 1 := by
  refine ⟨by decide, by decide⟩

/-- C3 (amended): when the ignore file is absent, reconcile creates it with
the fixed block, which already contains every required line as a substring,
so the re-read-and-check step appends nothing and each required line appears
exactly once in the resulting file. -/
theorem c3_fresh_create_once :
    createGitIgnore none = ⟨true, false, gitIgnoreBlock⟩ ∧
    includesAllLines gitRequired gitIgnoreBlock ∧
    eachLineOnce gitRequired gitIgnoreBlock ∧
    createShopifyIgnore none = ⟨true, false, shopifyIgnoreBlock⟩ ∧
    includesAllLines shopifyRequired shopifyIgnoreBlock ∧
    eachLineOnce shopifyRequired shopifyIgnoreBlock := by
  refine ⟨by decide, by decide, by decide, by decide, by decide, by decide⟩
